import Mathlib

/-!
Verification of the qbench indexing-throughput benchmark harness
(quickwit-oss/benchmarks, directory `qbench`).

The development shallowly embeds the parts of the Rust source that the
claims are about:

* `src/source/mod.rs`  — `BatchLineReader::next_batch` and `expand_uris`;
* `src/source/http.rs` — `send_documents_from_uri` / `send_documents_from_uris`;
* `src/main.rs`        — the driver loop, `send_with_retry`, `handle_result`;
* `src/sink/quickwit.rs`      — `QuickwitSink::send` (HTTP status handling);
* `src/sink/elasticsearch.rs` — `ElasticsearchSink::send` (bulk payload);
* `src/sink/loki.rs`   — per-line timestamp extraction and
  `parse_timestamp_to_nanoseconds`.

Bytes are modelled as `Nat` (one per `u8`), byte buffers as `List Nat`,
and strings as `List Char` where the Rust code works on `&str`.
Async I/O is abstracted into the sequence of values the I/O would
deliver (the lines a reader yields, the HTTP statuses a server answers).
-/

/-! ## Data model: `DocumentBatch` (src/source/mod.rs, lines 26-30) -/

/-- Embedding of `struct DocumentBatch { bytes: Vec<u8>, last: bool }`. -/
structure DocumentBatch where
  bytes : List Nat
  last : Bool
deriving DecidableEq, Repr

/-! ## `BatchLineReader::next_batch` (src/source/mod.rs, lines 122-157)

The reader state is its internal `buffer` plus the not-yet-read input.
`read_until(b'\n')` decomposes the input into units, each ending in the
byte 10 except possibly the last one; a unit of length 0 signals EOF.
`next_batch_run` is the composition of successive `next_batch()` calls,
given the list of `read_until` units of the underlying stream.  Each
element of the result is one returned batch paired with the value of
`has_next` at the moment the call returned (`true` for a batch returned
by the over-budget split at lines 139-146, `false` for the final batch
returned at EOF at lines 147-154). -/

/-- One step per `read_until` unit, mirroring the loop body of
`next_batch`: a unit longer than `max_batch_num_bytes` is truncated away
(lines 127-138); if appending the unit makes the buffer exceed
`max_batch_num_bytes`, everything except that unit is returned as a
batch and the unit seeds the next buffer (lines 139-146); at EOF
(`line_num_bytes == 0`) the remaining buffer, if any, is the final batch
and `has_next` becomes `false` (lines 147-154). -/
def next_batch_run (max_batch_num_bytes : Nat) :
    List (List Nat) → List Nat → List (List Nat × Bool)
  | [], buffer =>
    if buffer.isEmpty then [] else [(buffer, false)]
  | line :: rest, buffer =>
    if line.length > max_batch_num_bytes then
      next_batch_run max_batch_num_bytes rest buffer
    else if (buffer ++ line).length > max_batch_num_bytes then
      (buffer, true) :: next_batch_run max_batch_num_bytes rest line
    else
      next_batch_run max_batch_num_bytes rest (buffer ++ line)

/-! ## `send_documents_from_uri` (src/source/http.rs, lines 29-53)

The producer pulls `next_batch()` chunks in a `while let Some(batch)`
loop, accumulating them in `bytes` with running size `total_bytes`.
Whenever the next chunk would push the accumulator over `batch_size`,
the accumulator is sent as a `DocumentBatch` whose `last` flag is
`last_uri && !batch_reader.has_next()`.  Note the loop body never sends
the accumulator after the loop ends: whatever is left in `bytes` when
`next_batch()` returns `None` is dropped. -/

/-- Loop of `send_documents_from_uri` over the chunks returned by
`next_batch()` (paired with the `has_next` value observed right after
each chunk was returned). -/
def send_documents_from_uri_loop (last_uri : Bool) (batch_size : Nat) :
    Nat → List Nat → List (List Nat × Bool) → List DocumentBatch
  | _, _, [] => []
  | total_bytes, bytes, (batch, has_next) :: rest =>
    if total_bytes + batch.length > batch_size then
      { bytes := bytes, last := last_uri && !has_next } ::
        send_documents_from_uri_loop last_uri batch_size batch.length batch rest
    else
      send_documents_from_uri_loop last_uri batch_size
        (total_bytes + batch.length) (bytes ++ batch) rest

/-- `send_documents_from_uri` for one URI whose stream decomposes into
the given `read_until` units (`lines`): compose the reader with the
accumulator loop, starting from an empty accumulator. -/
def send_documents_from_uri (last_uri : Bool) (batch_size : Nat)
    (lines : List (List Nat)) : List DocumentBatch :=
  send_documents_from_uri_loop last_uri batch_size 0 []
    (next_batch_run batch_size lines [])

/-! ## `send_documents_from_uris` (src/source/http.rs, lines 55-71)

Iterates the expanded URI list; `last` is true exactly for the final
URI (`uri_idx == uris.len() - 1`).  A URI whose reader fails (here: an
`Except.error` entry) forwards the error through the channel and the
loop advances to the next URI. -/

/-- Channel content produced by `send_documents_from_uris`.  Each URI is
given as `Except.ok units` (its `read_until` units, reader succeeded) or
`Except.error e` (reader construction failed for that URI). -/
def send_documents_from_uris (batch_size : Nat) :
    List (Except String (List (List Nat))) → List (Except String DocumentBatch)
  | [] => []
  | u :: rest =>
    (match u with
      | .error e => [Except.error e]
      | .ok lines =>
        (send_documents_from_uri rest.isEmpty batch_size lines).map Except.ok)
    ++ send_documents_from_uris batch_size rest

/-! ## Driver (src/main.rs, lines 178-280) -/

/-- Embedding of `send_with_retry` (src/main.rs lines 241-260) as a
function of the success/failure outcome of each successive
`sink.send(&batch)` attempt.  It resolves `Ok(batch.bytes.len())` on the
first success; with `retry` disabled it resolves
`Err(batch.bytes.len())` on the first failure; with `retry` enabled it
sleeps 300 ms and loops, so it never resolves (`none`) if every attempt
fails. -/
def send_with_retry (retry : Bool) (batch_num_bytes : Nat) :
    List Bool → Option (Except Nat Nat)
  | [] => none
  | ok :: rest =>
    if ok then some (Except.ok batch_num_bytes)
    else if retry then send_with_retry retry batch_num_bytes rest
    else some (Except.error batch_num_bytes)

/-- Embedding of `handle_result` (src/main.rs lines 262-280): the state
is the pair `(num_ingested_bytes, num_ingestion_error_bytes)`. -/
def handle_result (result : Except Nat Nat) (counters : Nat × Nat) : Nat × Nat :=
  match result with
  | .ok bytes => (counters.1 + bytes, counters.2)
  | .error bytes => (counters.1, counters.2 + bytes)

/-- Outcome of a run of `main`'s ingestion phase: either the run aborts
with an error before `sink.commit()` is reached (the `?` operator on
line 179-182 of src/main.rs propagates the error out of `main`), or it
completes the loop, drains the in-flight futures, and reaches
`commit()` / `index_info()` / the report with the two byte counters. -/
inductive RunResult where
  | aborted (err : String)
  | completed (num_ingested_bytes num_ingestion_error_bytes : Nat)
deriving DecidableEq, Repr

/-- The driver loop of `main` (src/main.rs lines 178-213) over the
channel items.  `resolve` gives the value each `send_with_retry` future
eventually resolves to; `pending` is the `FuturesUnordered` window.  On
an `Err` channel item the error is logged and propagated: the run
aborts.  On an `Ok` batch the send future is pushed and, if the window
then holds 2 futures, one completion is awaited and accounted
(`FuturesUnordered` resolves in completion order; oldest-first is used
here, and the byte counters do not depend on that order).  After the
channel closes the remaining futures are drained and the run reaches
`commit()`. -/
def driver_loop (resolve : DocumentBatch → Except Nat Nat) :
    List (Except Nat Nat) → Nat × Nat → List (Except String DocumentBatch) →
    RunResult
  | pending, counters, [] =>
    let final := pending.foldl (fun c r => handle_result r c) counters
    .completed final.1 final.2
  | _, _, .error e :: _ => .aborted e
  | [], counters, .ok batch :: rest =>
    driver_loop resolve [resolve batch] counters rest
  | p :: ps, counters, .ok batch :: rest =>
    driver_loop resolve (ps ++ [resolve batch]) (handle_result p counters) rest

/-- Whole-run driver: empty in-flight window, zeroed counters. -/
def driver_run (resolve : DocumentBatch → Except Nat Nat)
    (items : List (Except String DocumentBatch)) : RunResult :=
  driver_loop resolve [] (0, 0) items

/-! ## URI expansion (src/source/mod.rs, lines 23-24 and 168-215)

`URI_EXPAND_PATTERN` is the regex `(\{\d+..\d+})`, in which the two
dots match ANY two characters (not-newline).  The matcher below follows
the regex's leftmost-first semantics for this fixed pattern: at each
position, a literal left brace, then a greedy run of one or more ASCII
digits (longest alternative preferred, backtracking downwards), two
arbitrary non-newline characters, a greedy run of one or more digits,
and a literal right brace.  `captures_iter` scans left to right and
yields non-overlapping matches. -/

/-- Length of the maximal ASCII-digit run at the head of the input. -/
def digit_run : List Char → Nat
  | [] => 0
  | c :: rest => if c.isDigit then digit_run rest + 1 else 0

/-- Matcher for the part of `URI_EXPAND_PATTERN` that follows the first
digit run: two arbitrary non-newline characters, one or more digits,
then a right brace.  Returns the number of characters consumed. -/
def match_tail (cs : List Char) : Option Nat :=
  match cs with
  | a :: b :: rest =>
    if a = '\n' ∨ b = '\n' then none
    else
      let m := digit_run rest
      if m = 0 then none
      else
        match rest.drop m with
        | c :: _ => if c = '}' then some (2 + m + 1) else none
        | [] => none
  | _ => none

/-- Backtracking over the length of the first digit run, longest first
(the regex's greedy `\d+`).  `cs` is the input just after the left
brace; a successful result is the total number of characters of the
match after the left brace. -/
def match_after_brace_k : Nat → List Char → Option Nat
  | 0, _ => none
  | k + 1, cs =>
    match match_tail (cs.drop (k + 1)) with
    | some n => some (k + 1 + n)
    | none => match_after_brace_k k cs

/-- Match `URI_EXPAND_PATTERN` immediately after a left brace. -/
def match_after_brace (cs : List Char) : Option Nat :=
  match_after_brace_k (digit_run cs) cs

/-- Scan step of the matcher, with fuel for structural recursion (one
unit of fuel per input position; a match consumes at least as many
positions as fuel). -/
def find_matches_go : Nat → List Char → List (List Char)
  | 0, _ => []
  | _, [] => []
  | fuel + 1, c :: rest =>
    if c = '{' then
      match match_after_brace rest with
      | some n => ('{' :: rest.take n) :: find_matches_go fuel (rest.drop n)
      | none => find_matches_go fuel rest
    else find_matches_go fuel rest

/-- All non-overlapping matches of `URI_EXPAND_PATTERN`, left to right,
as `captures_iter` yields them. -/
def find_matches (cs : List Char) : List (List Char) :=
  find_matches_go cs.length cs

/-- Embedding of `struct RangeExpand` (src/source/mod.rs lines 168-172):
the matched placeholder text, the half-open range `start..stop`, and the
zero-pad width. -/
structure RangeExpand where
  replace_str : List Char
  start : Nat
  stop : Nat
  zero_pad_by : Nat
deriving DecidableEq, Repr

/-- Rust `str::trim_matches(c)`: remove every leading and trailing
occurrence of `c`. -/
def trim_char (c : Char) (l : List Char) : List Char :=
  ((l.dropWhile (· = c)).reverse.dropWhile (· = c)).reverse

/-- Rust `str::split_once("..")`: split at the first occurrence of two
consecutive dots. -/
def split_once_dots : List Char → Option (List Char × List Char)
  | [] => none
  | c :: rest =>
    if c = '.' then
      match rest with
      | c2 :: rest2 =>
        if c2 = '.' then some ([], rest2)
        else (fun p => (c :: p.1, p.2)) <$> split_once_dots rest
      | [] => none
    else (fun p => (c :: p.1, p.2)) <$> split_once_dots rest

/-- Rust `str::parse::<usize>()`: an optional leading plus sign followed
by one or more ASCII digits (overflow, which errors in Rust, is not
modelled — the inputs of interest are small). -/
def parse_usize (l : List Char) : Option Nat :=
  let l' := match l with
    | c :: rest => if c = '+' then rest else l
    | [] => l
  if l'.isEmpty then none
  else if l'.any (fun c => ¬ c.isDigit) then none
  else some (l'.foldl (fun acc c => acc * 10 + (c.toNat - 48)) 0)

/-- Parsing one matched token into a `RangeExpand` (src/source/mod.rs
lines 178-196).  The source calls `.unwrap()` on `split_once` and on the
two integer parses; a `none` here is such a panic. -/
def parse_range_expand (tok : List Char) : Option RangeExpand :=
  let range_str := trim_char '}' (trim_char '{' tok)
  match split_once_dots range_str with
  | none => none
  | some (s, e) =>
    let zero_pad_by := if s.head? = some '0' then s.length else 0
    match parse_usize s, parse_usize e with
    | some start, some stop => some ⟨tok, start, stop, zero_pad_by⟩
    | _, _ => none

/-- Rust `format!("{i:0>pad_by$}")`: decimal digits of `i`, left-padded
with zeros to the requested width. -/
def zero_pad (width : Nat) (i : Nat) : List Char :=
  let d := Nat.toDigits 10 i
  if d.length < width then List.replicate (width - d.length) '0' ++ d else d

/-- Rust `str::replacen(pat, value, 1)`: replace the first occurrence of
`pat` (a nonempty placeholder here). -/
def list_starts_with : List Char → List Char → Bool
  | [], _ => true
  | _ :: _, [] => false
  | p :: ps, c :: cs => p = c && list_starts_with ps cs

/-- Replace the first occurrence of `pat` in the third argument by
`value`; unchanged if `pat` does not occur. -/
def replacen_once (pat value : List Char) : List Char → List Char
  | [] => []
  | c :: rest =>
    if list_starts_with pat (c :: rest) then value ++ (c :: rest).drop pat.length
    else c :: replacen_once pat value rest

/-- One pass of the expansion loop (src/source/mod.rs lines 202-212):
every URI currently in the queue is popped and replaced by one variant
per integer of the half-open range, in ascending order. -/
def expand_pass (r : RangeExpand) (uris : List (List Char)) : List (List Char) :=
  (uris.map (fun u =>
    (List.range' r.start (r.stop - r.start)).map
      (fun i => replacen_once r.replace_str (zero_pad r.zero_pad_by i) u))).flatten

/-- Embedding of `expand_uris` (src/source/mod.rs lines 175-215): find
all pattern matches, parse each into a `RangeExpand` (a failed parse is
an `.unwrap()` panic, modelled as `none`), then run the queue expansion
starting from the original template. -/
def expand_uris (uri : List Char) : Option (List (List Char)) := do
  let ranges ← (find_matches uri).mapM parse_range_expand
  return ranges.foldl (fun uris r => expand_pass r uris) [uri]

/-! ## Quickwit sink (src/sink/quickwit.rs, lines 47-80)

`QuickwitSink::send` posts the batch and inspects the response status in
a `while !sent` loop: status 429 sleeps one second and retries the same
request; any other status that is not exactly 200 fails with an HTTP
error; 200 sets `sent` and returns `Ok(())`. -/

/-- Result of `QuickwitSink::send`. -/
inductive QwSendResult where
  | ok
  | httpError (status : Nat)
  | pending
deriving DecidableEq, Repr

/-- Embedding of `QuickwitSink::send` as a function of the successive
HTTP response statuses; the second component counts the one-second
sleeps taken (one per 429).  An exhausted status list means the loop is
still waiting on the server (`pending`). -/
def QuickwitSink.send : List Nat → QwSendResult × Nat
  | [] => (.pending, 0)
  | status :: rest =>
    if status = 429 then
      let r := QuickwitSink.send rest
      (r.1, r.2 + 1)
    else if status ≠ 200 then (.httpError status, 0)
    else (.ok, 0)

/-! ## Elasticsearch sink (src/sink/elasticsearch.rs, lines 47-67)

`ElasticsearchSink::send` reads the batch line by line with
`BufReader::lines()` (each line is the bytes before a newline, with the
terminating `\n` removed and a `\r` immediately before it also removed;
a final fragment without a newline is yielded unchanged) and, for every
non-empty line, appends `{"create": {  }}` plus a newline (the exact
bytes of the `writeln!` at line 54, including its two inner spaces),
then the line, then a newline.  The model takes the raw batch bytes and
assumes they are valid UTF-8 (the `while let Ok(..)` would silently
stop at invalid UTF-8). -/

/-- Decompose a byte stream into its `read_until(b'\n')` units: each
unit ends with the byte 10 except possibly the last, and no unit is
empty. -/
def read_until_split : List Nat → List (List Nat)
  | [] => []
  | b :: rest =>
    if b = 10 then [10] :: read_until_split rest
    else
      match read_until_split rest with
      | [] => [[b]]
      | l :: ls => (b :: l) :: ls

/-- The `lines()` post-processing of one unit: strip a trailing newline,
and a carriage return immediately before it. -/
def strip_line (l : List Nat) : List Nat :=
  if l.getLast? = some 10 then
    if l.dropLast.getLast? = some 13 then l.dropLast.dropLast else l.dropLast
  else l

/-- The exact meta-line bytes the sink writes before each document:
`writeln!(&mut payload, r#"{{"create": {{  }}}}"#)`, that is the
16 characters of `{"create": {  }}` followed by a newline. -/
def es_meta_line : List Nat :=
  [123, 34, 99, 114, 101, 97, 116, 101, 34, 58, 32, 123, 32, 32, 125, 125, 10]

/-- Embedding of the `_bulk` payload built by `ElasticsearchSink::send`
(src/sink/elasticsearch.rs lines 48-57) from the raw batch bytes. -/
def ElasticsearchSink.send (bytes : List Nat) : List Nat :=
  ((read_until_split bytes).map strip_line).foldl
    (fun payload line =>
      if line.isEmpty then payload else payload ++ es_meta_line ++ line ++ [10])
    []

/-! ## Loki sink (src/sink/loki.rs, lines 119-146 and 242-250)

`LokiSink::send` parses each line as JSON, reads the string field
`timestamp` with `.expect(..)` (a panic when the field is missing or not
a string), and converts it with `parse_timestamp_to_nanoseconds`:
`chrono::DateTime::parse_from_rfc3339` followed by
`.timestamp_nanos_opt().expect("timestamp out of range")` (an error
result for a parse failure, a panic for an out-of-range timestamp). -/

/-- Minimal JSON value tree (numbers as integers suffice here). -/
inductive Json where
  | null
  | bool (b : Bool)
  | num (n : Int)
  | str (s : String)
  | arr (items : List Json)
  | obj (fields : List (String × Json))
deriving Repr

/-- `serde_json::Value::get(key)` on an object. -/
def Json.get : Json → String → Option Json
  | .obj fields, key => fields.lookup key
  | _, _ => none

/-- `serde_json::Value::as_str()`. -/
def Json.as_str : Json → Option String
  | .str s => some s
  | _ => none

/-- Exactly `n` ASCII digits, returning their value and the rest. -/
def parse_fixed_digits : Nat → List Char → Option (Nat × List Char)
  | 0, cs => some (0, cs)
  | _ + 1, [] => none
  | n + 1, c :: cs =>
    if c.isDigit then
      match parse_fixed_digits n cs with
      | some (v, rest) => some ((c.toNat - 48) * 10 ^ n + v, rest)
      | none => none
    else none

/-- Expect one literal character. -/
def expect_char (c : Char) : List Char → Option (List Char)
  | [] => none
  | x :: rest => if x = c then some rest else none

/-- Fractional seconds after the dot: one or more digits; the first
nine (padded with zeros) give the nanoseconds, further digits are
consumed and ignored, as in chrono's `nanosecond` scanner. -/
def scan_frac_digits (cs : List Char) : Option (Nat × List Char) :=
  let digits := cs.takeWhile Char.isDigit
  if digits.isEmpty then none
  else
    let first9 := digits.take 9
    let value := first9.foldl (fun acc c => acc * 10 + (c.toNat - 48)) 0
    some (value * 10 ^ (9 - first9.length), cs.drop digits.length)

/-- Optional `.frac` component. -/
def scan_frac_opt : List Char → Option (Nat × List Char)
  | [] => some (0, [])
  | c :: rest =>
    if c = '.' then scan_frac_digits rest
    else some (0, c :: rest)

/-- RFC 3339 offset: `Z`/`z`, or a sign followed by `HH:MM`; returns the
offset in seconds.  chrono rejects offsets of 24 hours or more
(`FixedOffset::east_opt`). -/
def scan_offset : List Char → Option (Int × List Char)
  | [] => none
  | c :: rest =>
    if c = 'Z' ∨ c = 'z' then some (0, rest)
    else if c = '+' ∨ c = '-' then
      match parse_fixed_digits 2 rest with
      | none => none
      | some (hh, rest1) =>
        match expect_char ':' rest1 with
        | none => none
        | some rest2 =>
          match parse_fixed_digits 2 rest2 with
          | none => none
          | some (mm, rest3) =>
            let total : Int := hh * 3600 + mm * 60
            if total ≥ 86400 then none
            else some (if c = '-' then -total else total, rest3)
    else none

/-- Gregorian leap year. -/
def is_leap_year (y : Nat) : Bool :=
  y % 4 = 0 && (y % 100 ≠ 0 || y % 400 = 0)

/-- Days in a month. -/
def days_in_month (y m : Nat) : Nat :=
  if m = 2 then (if is_leap_year y then 29 else 28)
  else if m = 4 ∨ m = 6 ∨ m = 9 ∨ m = 11 then 30
  else 31

/-- Days from 1970-01-01 to year/month/day (proleptic Gregorian,
Hinnant's `days_from_civil`). -/
def days_from_civil (y : Int) (m d : Nat) : Int :=
  let yAdj : Int := if m ≤ 2 then y - 1 else y
  let era : Int := yAdj.fdiv 400
  let yoe : Int := yAdj - era * 400
  let mp : Int := ((m : Int) + 9) % 12
  let doy : Int := (153 * mp + 2).fdiv 5 + ((d : Int) - 1)
  let doe : Int := yoe * 365 + yoe.fdiv 4 - yoe.fdiv 100 + doy
  era * 146097 + doe - 719468

/-- Embedding of `chrono::DateTime::parse_from_rfc3339`: on success,
the timestamp as (whole seconds since the Unix epoch, subsecond
nanoseconds).  A leap second (`:60`) is folded into nanoseconds
`+ 10^9` of second 59, as chrono represents it. -/
def parse_from_rfc3339 (s : String) : Option (Int × Nat) := do
  let cs := s.data
  let (y, cs) ← parse_fixed_digits 4 cs
  let cs ← expect_char '-' cs
  let (mo, cs) ← parse_fixed_digits 2 cs
  let cs ← expect_char '-' cs
  let (d, cs) ← parse_fixed_digits 2 cs
  let cs ← (match cs with
    | c :: rest => if c = 'T' ∨ c = 't' ∨ c = ' ' then some rest else none
    | [] => none)
  let (h, cs) ← parse_fixed_digits 2 cs
  let cs ← expect_char ':' cs
  let (mi, cs) ← parse_fixed_digits 2 cs
  let cs ← expect_char ':' cs
  let (sec, cs) ← parse_fixed_digits 2 cs
  let (nano, cs) ← scan_frac_opt cs
  let (off, cs) ← scan_offset cs
  if ¬ cs.isEmpty then none
  else if mo < 1 ∨ 12 < mo ∨ d < 1 ∨ days_in_month y mo < d then none
  else if 23 < h ∨ 59 < mi ∨ 60 < sec then none
  else
    let secFold := if sec = 60 then 59 else sec
    let nanoFold := if sec = 60 then nano + 1000000000 else nano
    let localSecs : Int :=
      days_from_civil y mo d * 86400 + h * 3600 + mi * 60 + secFold
    return (localSecs - off, nanoFold)

/-- `DateTime::timestamp_nanos_opt`:
`timestamp().checked_mul(1_000_000_000)?.checked_add(subsec_nanos)`,
with both intermediate results required to fit in a signed 64-bit
integer. -/
def timestamp_nanos_opt (secs : Int) (nanos : Nat) : Option Int :=
  let m := secs * 1000000000
  if m < -(2 ^ 63) ∨ 2 ^ 63 - 1 < m then none
  else
    let t := m + nanos
    if t < -(2 ^ 63) ∨ 2 ^ 63 - 1 < t then none
    else some t

/-- Outcome of handling one line in `LokiSink::send`: a panic (from an
`.expect(..)`), an error result (propagated with `?`), or the
nanosecond timestamp string. -/
inductive TsResult where
  | panics (msg : String)
  | fails (msg : String)
  | ok (nanos : String)
deriving DecidableEq, Repr

/-- Embedding of `parse_timestamp_to_nanoseconds` (src/sink/loki.rs
lines 243-250): a parse failure is an error result; an out-of-range
timestamp hits `.expect("timestamp out of range")` and panics. -/
def parse_timestamp_to_nanoseconds (s : String) : TsResult :=
  match parse_from_rfc3339 s with
  | none => .fails s
  | some (secs, nanos) =>
    match timestamp_nanos_opt secs nanos with
    | none => .panics "timestamp out of range"
    | some t => .ok (toString t)

/-- Embedding of the per-line timestamp handling of `LokiSink::send`
(src/sink/loki.rs lines 130-140): `doc.get("timestamp")` and
`.and_then(|ts| ts.as_str())` followed by
`.expect("no timestamp field found")` — a panic when the field is
missing or not a string — then `parse_timestamp_to_nanoseconds`. -/
def LokiSink.process_line (doc : Json) : TsResult :=
  match (doc.get "timestamp").bind Json.as_str with
  | none => .panics "no timestamp field found"
  | some ts => parse_timestamp_to_nanoseconds ts

/-- The byte count carried by a resolved `send_with_retry` future
(`Ok(bytes)` and `Err(bytes)` both carry `batch.bytes.len()`). -/
def result_bytes : Except Nat Nat → Nat
  | .ok b => b
  | .error b => b

/-! ## Reader lemmas -/

/-- Concatenation: when no unit exceeds the budget, the batches returned
by successive `next_batch()` calls concatenate to the buffer followed by
the unread input. -/
theorem next_batch_run_flatten (maxB : Nat) (lines : List (List Nat)) :
    ∀ buffer : List Nat, (∀ l ∈ lines, l.length ≤ maxB) →
      ((next_batch_run maxB lines buffer).map Prod.fst).flatten =
        buffer ++ lines.flatten := by
  induction lines with
  | nil =>
    intro buffer _
    simp only [next_batch_run]
    by_cases hb : buffer.isEmpty
    · simp [hb, List.isEmpty_iff.mp hb]
    · simp [hb]
  | cons l rest ih =>
    intro buffer h
    have hl : l.length ≤ maxB := h l (List.mem_cons_self l rest)
    have hrest : ∀ x ∈ rest, x.length ≤ maxB :=
      fun x hx => h x (List.mem_cons_of_mem l hx)
    simp only [next_batch_run]
    rw [if_neg (by omega)]
    by_cases hover : (buffer ++ l).length > maxB
    · rw [if_pos hover]
      simp only [List.map_cons, List.flatten_cons]
      rw [ih l hrest]
    · rw [if_neg hover]
      rw [ih (buffer ++ l) hrest]
      simp

/-- Size bound: starting from a buffer within budget, every batch the
reader returns is at most `max_batch_num_bytes` long — with no
hypothesis on the input units, because oversize lines are dropped and an
over-budget buffer is split before its last line. -/
theorem next_batch_run_size (maxB : Nat) (lines : List (List Nat)) :
    ∀ buffer : List Nat, buffer.length ≤ maxB →
      ∀ cb ∈ next_batch_run maxB lines buffer, cb.1.length ≤ maxB := by
  induction lines with
  | nil =>
    intro buffer hb cb hcb
    simp only [next_batch_run] at hcb
    by_cases he : buffer.isEmpty
    · simp [he] at hcb
    · rw [if_neg (by simpa using he)] at hcb
      have hcb' : cb = (buffer, false) := by simpa using hcb
      rw [hcb']
      exact hb
  | cons l rest ih =>
    intro buffer hb cb hcb
    simp only [next_batch_run] at hcb
    by_cases hskip : l.length > maxB
    · rw [if_pos hskip] at hcb
      exact ih buffer hb cb hcb
    · rw [if_neg hskip] at hcb
      by_cases hover : (buffer ++ l).length > maxB
      · rw [if_pos hover] at hcb
        rcases List.mem_cons.mp hcb with h1 | h2
        · rw [h1]; exact hb
        · exact ih l (by omega) cb h2
      · rw [if_neg hover] at hcb
        exact ih (buffer ++ l) (by simpa using hover) cb hcb

/-- Line alignment: when every unit is nonempty and within budget, the
returned batches form a partition of the input units into nonempty
consecutive groups — each batch is a concatenation of whole units, and
no unit is split across batches. -/
theorem next_batch_run_groups (maxB : Nat) (lines : List (List Nat)) :
    ∀ bufLines : List (List Nat),
      (∀ l ∈ lines, l.length ≤ maxB) → (∀ l ∈ lines, l ≠ []) →
      (∀ l ∈ bufLines, l ≠ []) →
      ∃ groups : List (List (List Nat)),
        (∀ g ∈ groups, g ≠ []) ∧
        groups.flatten = bufLines ++ lines ∧
        (next_batch_run maxB lines bufLines.flatten).map Prod.fst =
          groups.map List.flatten := by
  induction lines with
  | nil =>
    intro bufLines _ _ hne
    by_cases hb : bufLines = []
    · exact ⟨[], by simp, by simp [hb], by simp [hb, next_batch_run]⟩
    · refine ⟨[bufLines], by simp [hb], by simp, ?_⟩
      have hjoin : ¬ bufLines.flatten.isEmpty := by
        obtain ⟨x, xs, rfl⟩ := List.exists_cons_of_ne_nil hb
        have hx : x ≠ [] := hne x (List.mem_cons_self x xs)
        obtain ⟨y, ys, rfl⟩ := List.exists_cons_of_ne_nil hx
        simp
      simp only [next_batch_run]
      rw [if_neg hjoin]
      simp
  | cons l rest ih =>
    intro bufLines h hlne hne
    have hl : l.length ≤ maxB := h l (List.mem_cons_self l rest)
    have hlnonempty : l ≠ [] := hlne l (List.mem_cons_self l rest)
    have hrest : ∀ x ∈ rest, x.length ≤ maxB :=
      fun x hx => h x (List.mem_cons_of_mem l hx)
    have hrestne : ∀ x ∈ rest, x ≠ [] :=
      fun x hx => hlne x (List.mem_cons_of_mem l hx)
    simp only [next_batch_run]
    rw [if_neg (by omega)]
    by_cases hover : (bufLines.flatten ++ l).length > maxB
    · rw [if_pos hover]
      have hbne : bufLines ≠ [] := by
        intro hb
        rw [hb] at hover
        simp at hover
        omega
      obtain ⟨groups, hg1, hg2, hg3⟩ :=
        ih [l] hrest hrestne (by simpa using hlnonempty)
      have hflat : List.flatten [l] = l := by simp
      rw [hflat] at hg3
      refine ⟨bufLines :: groups, ?_, ?_, ?_⟩
      · intro g hg
        rcases List.mem_cons.mp hg with h1 | h2
        · rw [h1]; exact hbne
        · exact hg1 g h2
      · rw [List.flatten_cons, hg2]
        simp
      · simp only [List.map_cons]
        rw [hg3]
    · rw [if_neg hover]
      have hjoin : (bufLines ++ [l]).flatten = bufLines.flatten ++ l := by simp
      obtain ⟨groups, hg1, hg2, hg3⟩ := ih (bufLines ++ [l]) hrest hrestne
        (by
          intro x hx
          rcases List.mem_append.mp hx with h1 | h2
          · exact hne x h1
          · rw [List.mem_singleton.mp h2]; exact hlnonempty)
      rw [hjoin] at hg3
      refine ⟨groups, hg1, ?_, hg3⟩
      rw [hg2]
      simp

/-! ## Producer lemmas -/

/-- The accumulator loop of `send_documents_from_uri` never emits a
batch longer than `batch_size`, provided each reader chunk is within
budget: the accumulator is flushed before appending a chunk that would
exceed the budget. -/
theorem send_documents_from_uri_loop_size (last_uri : Bool) (B : Nat)
    (chunks : List (List Nat × Bool)) :
    ∀ (total : Nat) (acc : List Nat),
      (∀ cb ∈ chunks, cb.1.length ≤ B) →
      acc.length = total → total ≤ B →
      ∀ b ∈ send_documents_from_uri_loop last_uri B total acc chunks,
        b.bytes.length ≤ B := by
  induction chunks with
  | nil =>
    intro total acc _ _ _ b hb
    simp [send_documents_from_uri_loop] at hb
  | cons cb rest ih =>
    intro total acc hchunks hlen htot b hb
    obtain ⟨chunk, hn⟩ := cb
    have hchunk : chunk.length ≤ B := hchunks (chunk, hn) (List.mem_cons_self _ _)
    have hrest : ∀ x ∈ rest, x.1.length ≤ B :=
      fun x hx => hchunks x (List.mem_cons_of_mem _ hx)
    simp only [send_documents_from_uri_loop] at hb
    by_cases hflush : total + chunk.length > B
    · rw [if_pos hflush] at hb
      rcases List.mem_cons.mp hb with h1 | h2
      · rw [h1]
        simpa [hlen] using htot
      · exact ih chunk.length chunk hrest rfl hchunk b h2
    · rw [if_neg hflush] at hb
      exact ih (total + chunk.length) (acc ++ chunk) hrest
        (by simp [hlen]) (by omega) b hb

/-! ## Claim theorems -/

/-- Claim C1 (code bug).  The claim states that every run over a
non-empty expanded URI list emits exactly one batch with `last = true`
(the final batch of the final URI) and that all bytes yielded by the
`BatchLineReader` are eventually emitted.  The code violates this:
`send_documents_from_uri` never sends its accumulator after the
`while let` loop ends, so the tail of every URI's stream is dropped.
On a run over one URI containing the single two-byte document `a\n`
with `batch_size = 10`, the source emits no batch at all — no batch
carries `last = true` and the two bytes are lost. -/
theorem spec_c1_no_last_batch_on_small_input :
    send_documents_from_uris 10 [Except.ok [[97, 10]]] = [] := by
  rfl

/-- Claim C2 (corrected).  A source-side error forwarded through the
batch channel makes the driver log it and ABORT the run (the `?` on the
received item propagates the error out of `main`), even when batches
were already emitted; `commit()`, `index_info()` and the report are not
reached.  The producer side does advance to the next URI after
forwarding the error. -/
theorem spec_c2_source_error_aborts :
    (∀ (resolve : DocumentBatch → Except Nat Nat)
        (pending : List (Except Nat Nat)) (counters : Nat × Nat)
        (front post : List (Except String DocumentBatch)) (e : String),
        (∀ i ∈ front, ∃ b, i = Except.ok b) →
        driver_loop resolve pending counters (front ++ Except.error e :: post) =
          RunResult.aborted e) ∧
    (∀ (batch_size : Nat) (e : String)
        (rest : List (Except String (List (List Nat)))),
        send_documents_from_uris batch_size (Except.error e :: rest) =
          Except.error e :: send_documents_from_uris batch_size rest) := by
  constructor
  · intro resolve pending counters front post e
    induction front generalizing pending counters with
    | nil =>
      intro _
      simp [driver_loop]
    | cons i front ihf =>
      intro hfront
      obtain ⟨b, hb⟩ := hfront i (List.mem_cons_self i front)
      subst hb
      have hfront' : ∀ x ∈ front, ∃ b, x = Except.ok b :=
        fun x hx => hfront x (List.mem_cons_of_mem _ hx)
      cases pending with
      | nil =>
        simp only [List.cons_append, driver_loop]
        exact ihf _ _ hfront'
      | cons p ps =>
        simp only [List.cons_append, driver_loop]
        exact ihf _ _ hfront'
  · intro batch_size e rest
    rfl

/-- Claim C2, counterexample to the claim as stated: a run whose source
emits one batch and then forwards an error does NOT continue — the
driver aborts with that error, and `commit()` is never reached (the
result is `aborted`, not `completed`). -/
theorem spec_c2_counterexample :
    send_documents_from_uris 3 [Except.ok [[97, 10], [98, 10]], Except.error "boom"] =
      [Except.ok ⟨[97, 10], false⟩, Except.error "boom"] ∧
    driver_run (fun b => Except.ok b.bytes.length)
      (send_documents_from_uris 3
        [Except.ok [[97, 10], [98, 10]], Except.error "boom"]) =
      RunResult.aborted "boom" := by
  exact ⟨rfl, rfl⟩

/-- Witness for `spec_c2_source_error_aborts` at a concrete input. -/
theorem spec_c2_source_error_aborts_witness :
    driver_loop (fun b => Except.ok b.bytes.length) [] (0, 0)
      ([Except.ok ⟨[97, 10], false⟩] ++ Except.error "late" :: []) =
      RunResult.aborted "late" ∧
    send_documents_from_uris 5 (Except.error "x" :: [Except.ok [[97, 10]]]) =
      Except.error "x" :: send_documents_from_uris 5 [Except.ok [[97, 10]]] :=
  ⟨spec_c2_source_error_aborts.1 _ [] (0, 0) [Except.ok ⟨[97, 10], false⟩] [] "late"
      (fun _i hi => ⟨⟨[97, 10], false⟩, List.mem_singleton.mp hi⟩),
    spec_c2_source_error_aborts.2 5 "x" [Except.ok [[97, 10]]]⟩

/-- Claim C3 (confirmed).  For an input of newline-terminated lines each
at most `L` bytes read with budget `B ≥ L`: the concatenation of all
batches returned by successive `next_batch()` calls equals the input
byte-for-byte; every returned batch is at most `B` bytes; and the
batches partition the lines into nonempty consecutive groups, so every
batch ends on a line boundary and no line is split across batches. -/
theorem spec_c3_line_batching (B L : Nat) (lines : List (List Nat))
    (hlines : ∀ l ∈ lines, l ≠ [] ∧ l.getLast? = some 10 ∧ l.length ≤ L)
    (hB : L ≤ B) :
    ((next_batch_run B lines []).map Prod.fst).flatten = lines.flatten ∧
    (∀ b ∈ (next_batch_run B lines []).map Prod.fst, b.length ≤ B) ∧
    ∃ groups : List (List (List Nat)),
      (∀ g ∈ groups, g ≠ []) ∧
      groups.flatten = lines ∧
      (next_batch_run B lines []).map Prod.fst = groups.map List.flatten := by
  have hle : ∀ l ∈ lines, l.length ≤ B :=
    fun l hl => le_trans (hlines l hl).2.2 hB
  have hne : ∀ l ∈ lines, l ≠ [] := fun l hl => (hlines l hl).1
  refine ⟨?_, ?_, ?_⟩
  · simpa using next_batch_run_flatten B lines [] hle
  · intro b hb
    obtain ⟨cb, hcb, rfl⟩ := List.mem_map.mp hb
    exact next_batch_run_size B lines [] (by simp) cb hcb
  · obtain ⟨groups, h1, h2, h3⟩ :=
      next_batch_run_groups B lines [] hle hne (by simp)
    exact ⟨groups, h1, by simpa using h2, by simpa using h3⟩

/-- Witness for `spec_c3_line_batching` at a concrete input. -/
theorem spec_c3_line_batching_witness :
    (∀ l ∈ ([[97, 10], [98, 10], [99, 10]] : List (List Nat)),
        l ≠ [] ∧ l.getLast? = some 10 ∧ l.length ≤ 2) ∧ 2 ≤ 4 ∧
    ((next_batch_run 4 [[97, 10], [98, 10], [99, 10]] []).map Prod.fst).flatten =
      ([[97, 10], [98, 10], [99, 10]] : List (List Nat)).flatten :=
  ⟨by decide, by decide,
    (spec_c3_line_batching 4 2 [[97, 10], [98, 10], [99, 10]]
      (by decide) (by decide)).1⟩

/-- Claim C10 (confirmed).  Every `DocumentBatch` delivered through the
source channel has `bytes.len() ≤ batch_size`, strictly, with no
one-line overshoot: the producer flushes before appending a chunk that
would exceed the budget, and each reader chunk is itself at most
`max_batch_num_bytes` because oversize lines are dropped and an
over-budget buffer is split before its last line. -/
theorem spec_c10_batch_size_bound (B : Nat)
    (uris : List (Except String (List (List Nat)))) (batch : DocumentBatch)
    (hmem : Except.ok batch ∈ send_documents_from_uris B uris) :
    batch.bytes.length ≤ B := by
  revert hmem
  induction uris with
  | nil =>
    intro hmem
    simp [send_documents_from_uris] at hmem
  | cons u rest ih =>
    intro hmem
    simp only [send_documents_from_uris] at hmem
    rcases List.mem_append.mp hmem with h1 | h2
    · cases u with
      | error e => simp at h1
      | ok lines =>
        simp only [List.mem_map] at h1
        obtain ⟨b, hb, heq⟩ := h1
        have hbb : b = batch := by injection heq
        subst hbb
        exact send_documents_from_uri_loop_size rest.isEmpty B
          (next_batch_run B lines []) 0 []
          (next_batch_run_size B lines [] (by simp)) rfl (Nat.zero_le B) b hb
    · exact ih h2

/-- Witness for `spec_c10_batch_size_bound` at a concrete input. -/
theorem spec_c10_batch_size_bound_witness :
    Except.ok (⟨[97, 10], true⟩ : DocumentBatch) ∈
      send_documents_from_uris 3 [Except.ok [[97, 10], [98, 10]]] ∧
    (⟨[97, 10], true⟩ : DocumentBatch).bytes.length ≤ 3 := by
  have hmem : Except.ok (⟨[97, 10], true⟩ : DocumentBatch) ∈
      send_documents_from_uris 3 [Except.ok [[97, 10], [98, 10]]] := by
    have hev : send_documents_from_uris 3 [Except.ok [[97, 10], [98, 10]]] =
        [Except.ok ⟨[97, 10], true⟩] := by rfl
    rw [hev]
    exact List.mem_singleton_self _
  exact ⟨hmem, spec_c10_batch_size_bound 3 _ _ hmem⟩

/-- A resolved `send_with_retry` future carries exactly the batch's
byte count, whichever side it resolves on and however many failed
attempts preceded the resolution. -/
theorem send_with_retry_resolves (retry : Bool) (n : Nat) :
    ∀ (attempts : List Bool) (r : Except Nat Nat),
      send_with_retry retry n attempts = some r →
      r = Except.ok n ∨ r = Except.error n := by
  intro attempts
  induction attempts with
  | nil =>
    intro r hr
    simp [send_with_retry] at hr
  | cons a rest ih =>
    intro r hr
    cases a with
    | true =>
      simp [send_with_retry] at hr
      exact Or.inl hr.symm
    | false =>
      cases retry with
      | true =>
        simp [send_with_retry] at hr
        exact ih r hr
      | false =>
        simp [send_with_retry] at hr
        exact Or.inr hr.symm

/-- Folding `handle_result` sums each result's byte count into exactly
one of the two counters. -/
theorem handle_result_foldl (rs : List (Except Nat Nat)) :
    ∀ init : Nat × Nat,
      (rs.foldl (fun c r => handle_result r c) init).1 +
        (rs.foldl (fun c r => handle_result r c) init).2 =
      init.1 + init.2 + (rs.map result_bytes).sum := by
  induction rs with
  | nil =>
    intro init
    simp
  | cons r rest ih =>
    intro init
    simp only [List.foldl_cons, List.map_cons, List.sum_cons]
    rw [ih]
    cases r with
    | ok b =>
      simp only [handle_result, result_bytes]
      omega
    | error b =>
      simp only [handle_result, result_bytes]
      omega

/-- Pointwise: resolved results carry the sizes of their batches. -/
theorem forall2_result_bytes (retry : Bool)
    (batches : List (Nat × List Bool)) (results : List (Except Nat Nat))
    (hresolve : List.Forall₂
      (fun (p : Nat × List Bool) r => send_with_retry retry p.1 p.2 = some r)
      batches results) :
    results.map result_bytes = batches.map Prod.fst := by
  induction hresolve with
  | nil => rfl
  | @cons p r ps rs h _ ih =>
    rcases send_with_retry_resolves retry p.1 p.2 r h with h1 | h1 <;>
      simp [h1, result_bytes, ih]

/-- Claim C4 (confirmed).  When every batch's `send_with_retry` future
resolves, the end-of-run counters are disjoint tallies whose sum equals
the total byte length of all batches pulled from the source: each
batch's length is accounted on exactly one side, exactly once,
regardless of how many retries its send needed.  Each batch is a pair
(byte length, outcome of each successive send attempt); `results` are
the resolved future values in the order they are accounted. -/
theorem spec_c4_accounting_disjoint (retry : Bool)
    (batches : List (Nat × List Bool)) (results : List (Except Nat Nat))
    (hresolve : List.Forall₂
      (fun (p : Nat × List Bool) r => send_with_retry retry p.1 p.2 = some r)
      batches results) :
    (results.foldl (fun c r => handle_result r c) (0, 0)).1 +
      (results.foldl (fun c r => handle_result r c) (0, 0)).2 =
    (batches.map Prod.fst).sum := by
  rw [handle_result_foldl, forall2_result_bytes retry batches results hresolve]
  simp

/-- Witness for `spec_c4_accounting_disjoint` at a concrete input:
one 3-byte batch whose send succeeds, one 5-byte batch whose send
fails with retry disabled; the counters sum to 8. -/
theorem spec_c4_accounting_disjoint_witness :
    List.Forall₂
      (fun (p : Nat × List Bool) (r : Except Nat Nat) =>
        send_with_retry false p.1 p.2 = some r)
      [(3, [true]), (5, [false])] [Except.ok 3, Except.error 5] ∧
    ([Except.ok 3, Except.error 5].foldl
        (fun c r => handle_result r c) (0, 0)).1 +
      ([Except.ok 3, Except.error 5].foldl
        (fun c r => handle_result r c) (0, 0)).2 =
    (([(3, [true]), (5, [false])] : List (Nat × List Bool)).map Prod.fst).sum := by
  have hf : List.Forall₂
      (fun (p : Nat × List Bool) (r : Except Nat Nat) =>
        send_with_retry false p.1 p.2 = some r)
      [(3, [true]), (5, [false])] [Except.ok 3, Except.error 5] := by
    refine List.Forall₂.cons ?_ (List.Forall₂.cons ?_ List.Forall₂.nil) <;> rfl
  exact ⟨hf, spec_c4_accounting_disjoint false _ _ hf⟩

/-- Claim C5 (confirmed).  The four reference examples of URI
expansion: a half-open `{0..5}` range, a zero-padded `{00..03}` range,
the Cartesian product of two ranges with the leftmost range outermost,
and a template with no range returned unchanged. -/
theorem spec_c5_expand_examples :
    expand_uris "a/{0..5}.json".data =
      some ["a/0.json".data, "a/1.json".data, "a/2.json".data,
            "a/3.json".data, "a/4.json".data] ∧
    expand_uris "a/{00..03}.x".data =
      some ["a/00.x".data, "a/01.x".data, "a/02.x".data] ∧
    expand_uris "a/{0..2}/{0..2}".data =
      some ["a/0/0".data, "a/0/1".data, "a/1/0".data, "a/1/1".data] ∧
    expand_uris "abc".data = some ["abc".data] := by
  refine ⟨?_, ?_, ?_, ?_⟩ <;> rfl

/-- Claim C6, counterexample to the claim as stated: a range token with
`start >= end` does NOT fail — `expand_uris "a/{5..3}.x"` succeeds and
returns the empty expansion (`{5..3}` parses, the half-open range is
empty, and the queue pass pops the template and pushes nothing). -/
theorem spec_c6_counterexample :
    expand_uris "a/{5..3}.x".data = some [] ∧
    (some [] : Option (List (List Char))) ≠ none := by
  exact ⟨rfl, by simp⟩

/-- Claim C6 (corrected).  A numeric range token with `start >= end`
yields an empty expansion without any error, and a token with
non-numeric bounds does not match `URI_EXPAND_PATTERN` at all, so the
template is returned unchanged; neither case raises a `ParseError`. -/
theorem spec_c6_amended :
    expand_uris "a/{5..3}.x".data = some [] ∧
    expand_uris "a/{x..y}.z".data = some ["a/{x..y}.z".data] := by
  exact ⟨rfl, rfl⟩

/-- Claim C7 (corrected).  `QuickwitSink::send` as a function of the
observed HTTP statuses: every 429 adds one one-second sleep and a
retry of the same request, with no bound on the number of retries; the
first non-429 status decides the call — success exactly when it is 200
(NOT any 2xx), and an `HttpError` failure for every other status. -/
theorem spec_c7_quickwit_send_statuses (n status : Nat) (rest : List Nat)
    (hstatus : status ≠ 429) :
    QuickwitSink.send (List.replicate n 429 ++ status :: rest) =
      (if status = 200 then QwSendResult.ok else QwSendResult.httpError status,
        n) := by
  induction n with
  | zero =>
    simp only [List.replicate, List.nil_append, QuickwitSink.send]
    rw [if_neg hstatus]
    by_cases h200 : status = 200
    · simp [h200]
    · simp [h200]
  | succ n ih =>
    simp only [List.replicate, List.cons_append, QuickwitSink.send, if_true,
      List.append_eq]
    rw [ih]
/-- Witness for `spec_c7_quickwit_send_statuses` at a concrete input:
two 429 responses then a 500 give two sleeps and an `HttpError`. -/
theorem spec_c7_quickwit_send_statuses_witness :
    (500 : Nat) ≠ 429 ∧
    QuickwitSink.send (List.replicate 2 429 ++ 500 :: []) =
      (QwSendResult.httpError 500, 2) := by
  refine ⟨by decide, ?_⟩
  have h := spec_c7_quickwit_send_statuses 2 500 [] (by decide)
  simpa using h

/-- Claim C7, counterexample to the claim as stated: status 204 is a
2xx status, yet `QuickwitSink::send` fails with an `HttpError` on it —
only exactly 200 succeeds (`response.status() != StatusCode::OK`). -/
theorem spec_c7_counterexample :
    QuickwitSink.send [204] = (QwSendResult.httpError 204, 0) ∧
    QwSendResult.httpError 204 ≠ QwSendResult.ok := by
  exact ⟨rfl, by simp⟩

/-- `read_until` unit decomposition of a newline-terminated line
followed by more input. -/
theorem read_until_split_append (l : List Nat) (tail : List Nat)
    (hl : (10 : Nat) ∉ l) :
    read_until_split (l ++ 10 :: tail) = (l ++ [10]) :: read_until_split tail := by
  induction l with
  | nil => simp [read_until_split]
  | cons b rest ih =>
    have hb : b ≠ 10 := by
      intro h
      exact hl (by simp [h])
    have hrest : (10 : Nat) ∉ rest := fun h => hl (List.mem_cons_of_mem _ h)
    simp only [List.cons_append, read_until_split, List.append_eq]
    rw [if_neg hb, ih hrest]

/-- `read_until` units of a stream of newline-terminated lines are
exactly those lines (with their newlines). -/
theorem read_until_split_flatten (lines : List (List Nat))
    (h : ∀ l ∈ lines, (10 : Nat) ∉ l) :
    read_until_split (lines.map (· ++ [10])).flatten = lines.map (· ++ [10]) := by
  induction lines with
  | nil => rfl
  | cons l rest ih =>
    simp only [List.map_cons, List.flatten_cons]
    have hassoc : l ++ [10] ++ (rest.map (· ++ [10])).flatten =
        l ++ 10 :: (rest.map (· ++ [10])).flatten := by simp
    rw [hassoc,
      read_until_split_append l _ (h l (List.mem_cons_self l rest)),
      ih (fun x hx => h x (List.mem_cons_of_mem _ hx))]

/-- `lines()` strips exactly the trailing newline from a
newline-terminated line with no carriage return. -/
theorem strip_line_append (l : List Nat) (hl : (13 : Nat) ∉ l) :
    strip_line (l ++ [10]) = l := by
  unfold strip_line
  rw [if_pos (by simp)]
  have hdrop : (l ++ [10]).dropLast = l := by simp
  rw [hdrop, if_neg ?_]
  intro hlast
  obtain ⟨hne, heq⟩ := List.mem_getLast?_eq_getLast (Option.mem_def.mpr hlast)
  exact hl (heq ▸ List.getLast_mem hne)

/-- Unrolling the payload fold of `ElasticsearchSink::send`: the result
is the initial payload followed by one meta-line + line + newline block
per non-empty line. -/
theorem es_fold_append (lines : List (List Nat)) :
    ∀ init : List Nat,
      lines.foldl
        (fun payload line =>
          if line.isEmpty then payload
          else payload ++ es_meta_line ++ line ++ [10]) init =
      init ++ ((lines.filter (fun l => !l.isEmpty)).map
        (fun l => es_meta_line ++ l ++ [10])).flatten := by
  induction lines with
  | nil =>
    intro init
    simp
  | cons l rest ih =>
    intro init
    by_cases hemp : l.isEmpty
    · rw [List.foldl_cons, if_pos hemp, ih]
      simp [List.filter_cons, hemp]
    · rw [List.foldl_cons, if_neg hemp, ih]
      simp [List.filter_cons, hemp]

/-- Claim C8 (corrected).  For a batch of newline-terminated lines (no
interior newline, no carriage return), the `_bulk` body POSTed by the
Elasticsearch adapter is the concatenation, over the non-empty input
lines, of the meta line `{"create": {  }}\n` — the exact bytes of the
source's `writeln!`, with a space after the colon and two spaces inside
the inner braces, NOT the claimed `{"create":{}}\n` — followed by the
line and a trailing newline; empty lines contribute nothing. -/
theorem spec_c8_bulk_payload (lines : List (List Nat))
    (h10 : ∀ l ∈ lines, (10 : Nat) ∉ l) (h13 : ∀ l ∈ lines, (13 : Nat) ∉ l) :
    ElasticsearchSink.send (lines.map (· ++ [10])).flatten =
      ((lines.filter (fun l => !l.isEmpty)).map
        (fun l => es_meta_line ++ l ++ [10])).flatten := by
  unfold ElasticsearchSink.send
  rw [read_until_split_flatten lines h10]
  have hmap : (lines.map (· ++ [10])).map strip_line = lines := by
    rw [List.map_map]
    have : ∀ l ∈ lines, (strip_line ∘ (· ++ [10])) l = id l :=
      fun l hl => strip_line_append l (h13 l hl)
    rw [List.map_congr_left this, List.map_id]
  rw [hmap, es_fold_append]
  simp

/-- Witness for `spec_c8_bulk_payload` at a concrete input. -/
theorem spec_c8_bulk_payload_witness :
    (∀ l ∈ ([[120]] : List (List Nat)), (10 : Nat) ∉ l) ∧
    ElasticsearchSink.send (([[120]] : List (List Nat)).map (· ++ [10])).flatten =
      ((([[120]] : List (List Nat)).filter (fun l => !l.isEmpty)).map
        (fun l => es_meta_line ++ l ++ [10])).flatten :=
  ⟨by decide, spec_c8_bulk_payload [[120]] (by decide) (by decide)⟩

/-- Claim C8, counterexample to the claim as stated: for the single
input line `x`, the payload bytes start with `{"create": {  }}\n`
(byte 32 after the colon, bytes 32 32 between the inner braces), which
differ from the claimed bit-exact `{"create":{}}\n` prefix. -/
theorem spec_c8_counterexample :
    ElasticsearchSink.send [120, 10] =
      [123, 34, 99, 114, 101, 97, 116, 101, 34, 58, 32, 123, 32, 32, 125, 125,
        10, 120, 10] ∧
    ([123, 34, 99, 114, 101, 97, 116, 101, 34, 58, 32, 123, 32, 32, 125, 125,
        10, 120, 10] : List Nat) ≠
      [123, 34, 99, 114, 101, 97, 116, 101, 34, 58, 123, 125, 125, 10] ++
        [120, 10] := by
  exact ⟨rfl, by decide⟩

/-- Claim C9 (corrected).  Per-line timestamp handling in
`LokiSink::send`: the reference conversion holds
(`"2020-01-01T12:00:00Z"` maps to `"1577880000000000000"`), and the
three failure modes behave as the code — not the claim — prescribes: a
missing (or non-string) `timestamp` field PANICS via
`.expect("no timestamp field found")` rather than returning an error; a
string that fails to parse as RFC 3339 yields an error result; an
out-of-range timestamp PANICS via `.expect("timestamp out of range")`
rather than returning an error. -/
theorem spec_c9_loki_timestamp :
    LokiSink.process_line
        (Json.obj [("timestamp", Json.str "2020-01-01T12:00:00Z")]) =
      TsResult.ok "1577880000000000000" ∧
    (∀ doc : Json, (doc.get "timestamp").bind Json.as_str = none →
      LokiSink.process_line doc = TsResult.panics "no timestamp field found") ∧
    (∀ (doc : Json) (ts : String),
      (doc.get "timestamp").bind Json.as_str = some ts →
      parse_from_rfc3339 ts = none →
      LokiSink.process_line doc = TsResult.fails ts) ∧
    (∀ (doc : Json) (ts : String) (secs : Int) (nanos : Nat),
      (doc.get "timestamp").bind Json.as_str = some ts →
      parse_from_rfc3339 ts = some (secs, nanos) →
      timestamp_nanos_opt secs nanos = none →
      LokiSink.process_line doc = TsResult.panics "timestamp out of range") := by
  refine ⟨by rfl, ?_, ?_, ?_⟩
  · intro doc h
    simp [LokiSink.process_line, h]
  · intro doc ts h hp
    simp [LokiSink.process_line, h, parse_timestamp_to_nanoseconds, hp]
  · intro doc ts secs nanos h hp hn
    simp [LokiSink.process_line, h, parse_timestamp_to_nanoseconds, hp, hn]

/-- Witness for `spec_c9_loki_timestamp` at concrete inputs. -/
theorem spec_c9_loki_timestamp_witness :
    LokiSink.process_line (Json.obj []) =
      TsResult.panics "no timestamp field found" ∧
    LokiSink.process_line (Json.obj [("timestamp", Json.str "bad")]) =
      TsResult.fails "bad" :=
  ⟨spec_c9_loki_timestamp.2.1 (Json.obj []) rfl,
    spec_c9_loki_timestamp.2.2.1
      (Json.obj [("timestamp", Json.str "bad")]) "bad" rfl rfl⟩

/-- Claim C9, counterexample to the claim as stated: a document without
a `timestamp` field makes `send` PANIC (crash), not return an error
result, and an in-range-parse but out-of-i64-range timestamp
(year 2500) also panics. -/
theorem spec_c9_counterexample :
    LokiSink.process_line (Json.obj [("a", Json.num 1)]) =
      TsResult.panics "no timestamp field found" ∧
    LokiSink.process_line
        (Json.obj [("timestamp", Json.str "2500-01-01T00:00:00Z")]) =
      TsResult.panics "timestamp out of range" := by
  exact ⟨rfl, rfl⟩
